import Mathlib

/-!
# Verification of the gigs event-aggregation pipeline

Shallow embedding, in Lean 4, of the normalization, venue-resolution,
pagination, deduplication and sorting logic of the `gigs` repository
(`src/gigs/...` and `src/project/...`), together with theorems settling the
specification's claims about that code.

Conventions used throughout:
* Python strings are Lean `String`s.  The Python string operations the code
  uses (`split`, `strip`, `upper`, `int(...)`) are given structural
  char-list implementations below so that they evaluate by kernel
  reduction; each is a direct model of the CPython behaviour on the
  character range the pipeline handles.
* Python machine floats appearing as prices are modelled as `ℚ`: every price
  literal handled by the pipeline is a short decimal string, and only order
  and minima of those values matter to the claims.
* Code that can raise returns `Option`/`Except`; an exception caught by a
  `try`/`except` block in the source becomes a `none`/`.error` consumed by
  the caller.
* Network requests are modelled as explicit oracle functions passed to the
  embedded pipeline driver, so one run of the driver is a pure function of
  its input data and of the oracles' answers.
-/

namespace Gigs

open List

instance {ε α : Type} [DecidableEq ε] [DecidableEq α] : DecidableEq (Except ε α) := fun a b =>
  match a, b with
  | .ok x, .ok y => if h : x = y then .isTrue (by rw [h]) else .isFalse (by simp [h])
  | .error x, .error y => if h : x = y then .isTrue (by rw [h]) else .isFalse (by simp [h])
  | .ok _, .error _ => .isFalse (by simp)
  | .error _, .ok _ => .isFalse (by simp)

/-! ## Python character and string helpers -/

/-- Characters matched by Python's regex class `\s` (and, on this character
range, by `str.isspace()` and stripped by `str.strip()`). -/
def pySpace (c : Char) : Bool :=
  c == ' ' || c == '\t' || c == '\n' || c == '\r' || c == '\x0b' || c == '\x0c'

/-- Split a character list at every occurrence of the separator, keeping
empty runs — the behaviour of Python `str.split(sep)` with an explicit
one-character separator. -/
def splitOnChar (sep : Char) : List Char → List (List Char)
  | [] => [[]]
  | c :: rest =>
    let r := splitOnChar sep rest
    if c == sep then [] :: r
    else
      match r with
      | h :: t => (c :: h) :: t
      | [] => [[c]]

/-- Python `s.split(sep)` for a one-character separator. -/
def pySplit (s : String) (sep : Char) : List String :=
  (splitOnChar sep s.data).map String.mk

/-- Python `s.strip()`: remove leading and trailing whitespace. -/
def pyStrip (s : String) : String :=
  String.mk ((((s.data.dropWhile pySpace).reverse).dropWhile pySpace).reverse)

/-- Python `s.upper()` on the ASCII range the pipeline handles. -/
def pyUpper (s : String) : String :=
  String.mk (s.data.map Char.toUpper)

/-- Value of a digit string, most significant digit first. -/
def digitsToNat (cs : List Char) : Nat :=
  cs.foldl (fun a c => a * 10 + (c.toNat - 48)) 0

/-- Python `int(s)` on the unsigned decimal tokens the pipeline feeds it:
a non-empty all-digit string parses to its value, anything else raises
`ValueError`, i.e. gives `none` here.  (Signs and surrounding whitespace
never occur at the call sites.) -/
def pyInt? (s : String) : Option Nat :=
  if s.data ≠ [] && s.data.all Char.isDigit then some (digitsToNat s.data) else none

/-- Python `"x" in s` for a one-character needle. -/
def pyContains (s : String) (c : Char) : Bool :=
  s.data.contains c

/-- Month abbreviations in calendar order, as used both by the Phoenix date
regex and by `strftime("%b")`. -/
def monthAbbrevs : List String :=
  ["Jan", "Feb", "Mar", "Apr", "May", "Jun",
   "Jul", "Aug", "Sep", "Oct", "Nov", "Dec"]

/-! ## Phoenix scraper: `Gig.check_valid_date` (src/gigs/scrapers/phoenix.py)

The validator tests the raw date against the regex
`^\d{1,2}\s(Jan|Feb|...|Dec)\s\d{4}$` and falls back to the sentinel
`"01 Jan 2099"` when it does not match; a matching one-digit day is
zero-padded. -/

namespace Phoenix

/-- Tail of the pattern: exactly four digits and end of string (`\d{4}$`). -/
def matchYear4 (cs : List Char) : Bool :=
  match cs with
  | [a, b, c, d] => a.isDigit && b.isDigit && c.isDigit && d.isDigit
  | _ => false

/-- Middle of the pattern: a three-letter month abbreviation, one `\s`
character, then `\d{4}$`. -/
def matchMonthSpaceYear (cs : List Char) : Bool :=
  match cs with
  | m1 :: m2 :: m3 :: s :: rest =>
      monthAbbrevs.contains (String.mk [m1, m2, m3]) && pySpace s && matchYear4 rest
  | _ => false

/-- Full-string match of `^\d{1,2}\s(Jan|...|Dec)\s\d{4}$`.  After the first
digit, either a second digit followed by `\s`, or directly `\s`; backtracking
never helps because a digit is never a `\s` character. -/
def matchDatePattern (cs : List Char) : Bool :=
  match cs with
  | d1 :: c2 :: rest =>
      d1.isDigit &&
        (if c2.isDigit then
          match rest with
          | s :: rest2 => pySpace s && matchMonthSpaceYear rest2
          | [] => false
        else
          pySpace c2 && matchMonthSpaceYear rest)
  | _ => false

/-- Python `v[1].isspace()` on the `\s`-relevant range (a matching date is at
least eight characters long, so the index is in bounds whenever the source
evaluates this expression). -/
def secondCharIsSpace (v : String) : Bool :=
  match v.data with
  | _ :: c :: _ => pySpace c
  | _ => false

/-- Embeds `Gig.check_valid_date` of src/gigs/scrapers/phoenix.py: raw dates
that do not match the pattern become the sentinel `"01 Jan 2099"`; matching
dates with a one-digit day are zero-padded; other matches pass through. -/
def check_valid_date (v : String) : String :=
  if !matchDatePattern v.data then "01 Jan 2099"
  else if matchDatePattern v.data && secondCharIsSpace v then "0" ++ v
  else v

end Phoenix

/-! ## Eventbrite scraper: `Gig.parse_date`, `Gig.convert_price`, `fetch_data`
(src/gigs/scrapers/eventbrite.py) -/

/-- A Python value as it arrives from scraped JSON: a string, a number, or
`None`/anything else.  Only these shapes reach the embedded validators. -/
inductive PyVal where
  | str (s : String)
  | num (q : ℚ)
  | pynone
deriving Repr, DecidableEq

/-- Proleptic-Gregorian leap-year test, as used by Python `datetime`. -/
def isLeap (y : Nat) : Bool :=
  (y % 4 == 0 && y % 100 != 0) || y % 400 == 0

/-- Days in a month, as validated by Python `datetime`. -/
def daysInMonth (y m : Nat) : Nat :=
  if m = 2 then (if isLeap y then 29 else 28)
  else if m = 4 || m = 6 || m = 9 || m = 11 then 30
  else 31

/-- A calendar date as produced by a successful `datetime.strptime`. -/
structure PyDate where
  year : Nat
  month : Nat
  day : Nat
deriving Repr, DecidableEq

/-- Model of `datetime.strptime(v, "%Y-%m-%d")`: three dash-separated
all-digit fields (year up to four digits, month and day up to two), with the
ranges `datetime` validates; any other input raises `ValueError`, i.e.
returns `none` here. -/
def strptimeYMD (v : String) : Option PyDate :=
  match pySplit v '-' with
  | [ys, ms, ds] =>
    match pyInt? ys, pyInt? ms, pyInt? ds with
    | some y, some m, some d =>
      if ys.length ≤ 4 && ms.length ≤ 2 && ds.length ≤ 2 &&
          decide (1 ≤ y) && decide (1 ≤ m) && decide (m ≤ 12) &&
          decide (1 ≤ d) && decide (d ≤ daysInMonth y m) then
        some ⟨y, m, d⟩
      else none
    | _, _, _ => none
  | _ => none

/-- Zero-pad a number below 100 to two digits, as `strftime("%d")` does. -/
def pad2 (n : Nat) : String :=
  if n < 10 then "0" ++ toString n else toString n

/-- Model of `strftime("%d %b %Y")` on a valid date. -/
def strftimeDMbY (d : PyDate) : String :=
  pad2 d.day ++ " " ++ (monthAbbrevs.getD (d.month - 1) "-") ++ " " ++ toString d.year

namespace Eventbrite

/-- Embeds `Gig.parse_date` of src/gigs/scrapers/eventbrite.py: the raw date
is parsed with `datetime.strptime(v, "%Y-%m-%d")` — which RAISES `ValueError`
on any malformed input — and reformatted as `"%d %b %Y"` on success. -/
def parse_date (v : String) : Except String String :=
  match strptimeYMD v with
  | some d => .ok (strftimeDMbY d)
  | none => .error "ValueError"

/-- Model of Python `float(s)` on the unsigned decimal literals the pipeline
feeds it (`digits`, `digits.digits`, `.digits`, `digits.`, with surrounding
whitespace allowed); other strings raise `ValueError`, i.e. give `none`.
Sign, exponent and `inf`/`nan` forms never occur in the scraped inputs and
are not modelled. -/
def pyFloat (s : String) : Option ℚ :=
  let t := pyStrip s
  match pySplit t '.' with
  | [i] =>
    if i.data ≠ [] && i.data.all Char.isDigit then some ((digitsToNat i.data : ℚ))
    else none
  | [i, f] =>
    if (i.data ≠ [] || f.data ≠ []) && i.data.all Char.isDigit && f.data.all Char.isDigit then
      some ((digitsToNat i.data : ℚ) + (digitsToNat f.data : ℚ) / (10 : ℚ) ^ f.length)
    else none
  | _ => none

/-- Embeds `Gig.convert_price` of src/gigs/scrapers/eventbrite.py, the line
`return float(v) if isinstance(v, str) else 0.0`: a string is parsed with
`float` (raising on unparsable strings); any non-string value maps to
`0.0`. -/
def convert_price (v : PyVal) : Except String ℚ :=
  match v with
  | .str s =>
    match pyFloat s with
    | some q => .ok q
    | none => .error "ValueError"
  | _ => .ok 0

/-- The Eventbrite canonical record, restricted to the two fields whose
validators can fail (the remaining validators of the source class are
total). -/
structure EBGig where
  event_date : String
  price : ℚ
deriving Repr, DecidableEq

/-- Embeds the `Gig(event_date=..., price=..., ...)` construction of
src/gigs/scrapers/eventbrite.py: pydantic runs each field validator and the
construction raises as soon as one of them raises. -/
def mkGig (raw_date : String) (raw_price : PyVal) : Except String EBGig :=
  match parse_date raw_date with
  | .error e => .error e
  | .ok d =>
    match convert_price raw_price with
    | .error e => .error e
    | .ok p => .ok ⟨d, p⟩

/-- Embeds `fetch_data` of src/gigs/scrapers/eventbrite.py: each raw record
is turned into a `Gig` inside a `try`; a record whose construction raises is
logged and skipped, and the loop continues. -/
def fetch_data (rows : List (String × PyVal)) : List EBGig :=
  match rows with
  | [] => []
  | (d, p) :: rest =>
    match mkGig d p with
    | .ok g => g :: fetch_data rest
    | .error _ => fetch_data rest

end Eventbrite

/-! ## Moshtix venue resolver (src/gigs/scrapers/moshtix_venue.py)

The resolver enriches events with `suburb`/`state` from a persistent venue
directory (`mtix_venues.json`, a Python dict), performing a fallback web
lookup for the distinct venues that miss, merging the results back into the
directory, and re-running the directory lookup on the events that missed. -/

/-- An event record as read from `mtix_price.json`, restricted to the fields
the resolver touches. -/
structure MEvent where
  title : String
  venue : String
  suburb : String
  state : String
deriving Repr, DecidableEq

/-- One value of the venue directory: `{"suburb": ..., "state": ...}`. -/
structure VenueLoc where
  suburb : String
  state : String
deriving Repr, DecidableEq

/-- The venue directory, a Python dict keyed by exact venue-name string,
modelled as an association list with unique keys maintained by
`dictInsert`. -/
abbrev VenueMap := List (String × VenueLoc)

/-- Python `venues[venue] = value`: replace in place when the key exists
(dicts keep the key's insertion position), append otherwise. -/
def dictInsert (m : VenueMap) (k : String) (v : VenueLoc) : VenueMap :=
  if m.any (fun p => p.1 == k) then
    m.map (fun p => if p.1 == k then (k, v) else p)
  else m ++ [(k, v)]

/-- Embeds the body of `add_venue_info`'s `try` block on one event: look the
venue up and copy `suburb`/`state` into the event; a missing key raises,
i.e. gives `none` here. -/
def resolveEvent (venues : VenueMap) (e : MEvent) : Option MEvent :=
  (venues.lookup e.venue).map (fun loc => { e with suburb := loc.suburb, state := loc.state })

/-- Embeds `add_venue_info` of src/gigs/scrapers/moshtix_venue.py: each
event whose venue is in the directory goes, enriched, to `success`; each
lookup failure goes, unchanged, to `errors`; input order is preserved in
both lists. -/
def add_venue_info (data : List MEvent) (venues : VenueMap) : List MEvent × List MEvent :=
  match data with
  | [] => ([], [])
  | e :: rest =>
    let r := add_venue_info rest venues
    match resolveEvent venues e with
    | some e2 => (e2 :: r.1, r.2)
    | none => (r.1, e :: r.2)

/-- Outcome of the search request + scrape performed by `find_venue_url` for
one venue name: `get_request` returned `None`; the result page could not be
scraped (exception); or a venue URL was found. -/
inductive SearchResult where
  | noResponse
  | scrapeFail
  | found (url : String)
deriving Repr, DecidableEq

/-- Embeds `find_venue_url` of src/gigs/scrapers/moshtix_venue.py, with the
network modelled by the `search` oracle.  Returns `(success, errors, log)`:
`success` holds `(venue, url)` pairs, `errors` the stripped names whose page
could not be scraped (a `None` response is only logged), and `log` records
one entry per search request issued — used to count network operations. -/
def find_venue_url (search : String → SearchResult) (unknown_venues : List String) :
    List (String × String) × List String × List String :=
  match unknown_venues with
  | [] => ([], [], [])
  | v :: rest =>
    let r := find_venue_url search rest
    match search v with
    | .noResponse => (r.1, r.2.1, v :: r.2.2)
    | .scrapeFail => (r.1, pyStrip v :: r.2.1, v :: r.2.2)
    | .found url => ((v, url) :: r.1, r.2.1, v :: r.2.2)

/-- The fixed state-code list of `get_location`. -/
def statesList : List String :=
  ["ACT", "NSW", "NT", "QLD", "SA", "TAS", "VIC", "WA"]

/-- The source's locals `loc = address.split(",")[-1].strip()` and
`text = loc.split(" ")` in `extract_suburb_and_state`: the space-split
tokens of the address's final comma-separated segment. -/
def lastSegmentTokens (address : String) : List String :=
  pySplit (pyStrip ((pySplit address ',').getLastD "")) ' '

/-- Embeds `extract_suburb_and_state` of src/gigs/scrapers/moshtix_venue.py
(its `loc`/`text` locals are factored into `lastSegmentTokens`).  The
comprehension `[t for t in text if t in states][0]` raises `IndexError`
when no token matches (`none` here), and `text.index(state)` locates the
first occurrence of the chosen token. -/
def extract_suburb_and_state (address : String) (states : List String) :
    Option (String × String) :=
  let text := lastSegmentTokens address
  ((text.filter (fun t => states.contains t)).head?).bind fun t =>
    let state := pyStrip t
    (text.findIdx? (fun u => u == state)).bind fun idx =>
      some (pyStrip (String.intercalate " " (text.take idx)), state)

/-- Embeds `clean_address` of src/gigs/scrapers/moshtix_venue.py: an address
with no comma gives `("-", "-")`; otherwise `extract_suburb_and_state` runs
under a `try` whose handler turns a raised exception (`none`) into
`("-", "-")`. -/
def clean_address (address : String) (states : List String) : String × String :=
  if !pyContains address ',' then ("-", "-")
  else (extract_suburb_and_state address states).getD ("-", "-")

/-- Split a character list at every character satisfying the predicate,
keeping empty runs. -/
def splitOnPred (p : Char → Bool) : List Char → List (List Char)
  | [] => [[]]
  | c :: rest =>
    let r := splitOnPred p rest
    if p c then [] :: r
    else
      match r with
      | h :: t => (c :: h) :: t
      | [] => [[c]]

/-- Modelled from the claim's words, for refinement comparison with
`clean_address` (NOT from the source): tokenize the whole address on commas
and whitespace, take the first token lying in the fixed state set as the
state and join the tokens before it as the suburb; an address with no
comma, or with no matching token, yields `("-", "-")`. -/
def clean_address_claim (address : String) (states : List String) : String × String :=
  if !pyContains address ',' then ("-", "-")
  else
    let tokens :=
      ((splitOnPred (fun c => c == ',' || pySpace c) address.data).map String.mk).filter
        (fun t => t ≠ "")
    match (tokens.filter (fun t => states.contains t)).head? with
    | none => ("-", "-")
    | some st =>
      (String.intercalate " " (tokens.takeWhile (fun t => !states.contains t)), st)

/-- Outcome of the venue-page request + address scrape performed by
`get_location` for one venue URL. -/
inductive LocResult where
  | noResponse
  | parseFail
  | address (text : String)
deriving Repr, DecidableEq

/-- Embeds `get_location` of src/gigs/scrapers/moshtix_venue.py, with the
network modelled by the `fetchLoc` oracle: for each `(venue, url)` pair a
scraped address is stripped, upper-cased and parsed with `clean_address`;
failed requests and scrape exceptions contribute nothing. -/
def get_location (fetchLoc : String → LocResult) (valid_search_results : List (String × String)) :
    List (String × String × String) :=
  match valid_search_results with
  | [] => []
  | (venue, url) :: rest =>
    match fetchLoc url with
    | .address a =>
      let ss := clean_address (pyUpper (pyStrip a)) statesList
      (venue, ss.1, ss.2) :: get_location fetchLoc rest
    | _ => get_location fetchLoc rest

/-- Embeds the dict-update loop of `add_to_json` of
src/gigs/scrapers/moshtix_venue.py.  (The source additionally returns a
key-sorted copy of the dict for the JSON export; key order never affects
lookups, so the sorting is not modelled.) -/
def add_to_json (venues : VenueMap) (locations : List (String × String × String)) : VenueMap :=
  match locations with
  | [] => venues
  | (v, sub, st) :: rest => add_to_json (dictInsert venues v ⟨sub, st⟩) rest

/-- Result of one resolver run (`moshtix_fetch_venue`): the list written to
`moshtix.json`, the events logged as `Remaining Errors`, the directory after
merge-back, and the log of search requests issued. -/
structure RunResult where
  final_success : List MEvent
  errors2 : List MEvent
  venuesOut : VenueMap
  searchLog : List String
deriving Repr, DecidableEq

/-- Embeds the driver `moshtix_fetch_venue` of
src/gigs/scrapers/moshtix_venue.py: Pass 1 (`add_venue_info` on the data),
then — only when there are errors — the set of distinct unresolved venue
names (a Python set comprehension, modelled by `dedup`) is searched, located
and merged back into the directory (which the source mutates in place), then
Pass 2 re-runs `add_venue_info` on the Pass-1 errors.  `final_success` is
exported to `moshtix.json`; `errors2` is only logged. -/
def moshtix_fetch_venue (data : List MEvent) (venues : VenueMap)
    (search : String → SearchResult) (fetchLoc : String → LocResult) : RunResult :=
  let p1 := add_venue_info data venues
  let vl :=
    if p1.2.isEmpty then (venues, [])
    else
      let unknown_venues := (p1.2.map (fun e => e.venue)).dedup
      let fv := find_venue_url search unknown_venues
      let locations := get_location fetchLoc fv.1
      (add_to_json venues locations, fv.2.2)
  let p2 := add_venue_info p1.2 vl.1
  ⟨p1.1 ++ p2.1, p2.2, vl.1, vl.2⟩

/-! ## Table building: dedup and sort (src/gigs/build_tables.py and
src/project/clean.py)

A table row, restricted to the columns dedup and sort read.  By the time
`apply_sort`/`remove_duplicate_rows` run, `event_date` has been parsed into
a date value (`pl.Date`); dates are modelled as day numbers. -/
structure Row where
  event_date : Nat
  title : String
  venue : String
deriving Repr, DecidableEq

/-- Embeds polars `df.unique(subset=key, maintain_order=True)`: keep each
row whose key has not been seen earlier, preserving row order (the first
occurrence of every key survives). -/
def uniqueByAux {α β : Type} [DecidableEq β] (key : α → β) : List α → List β → List α
  | [], _ => []
  | x :: xs, seen =>
    if key x ∈ seen then uniqueByAux key xs seen
    else x :: uniqueByAux key xs (key x :: seen)

/-- `uniqueByAux` starting from no seen keys. -/
def uniqueBy {α β : Type} [DecidableEq β] (key : α → β) (l : List α) : List α :=
  uniqueByAux key l []

/-- Embeds `remove_duplicate_rows` of src/gigs/build_tables.py: first
`unique(subset=["title"], maintain_order=True)`, then
`unique(subset=["title", "venue"], maintain_order=True)`. -/
def remove_duplicate_rows (df : List Row) : List Row :=
  uniqueBy (fun r => (r.title, r.venue)) (uniqueBy (fun r => r.title) df)

/-- The sort key of `apply_sort` in src/gigs/build_tables.py: ascending
`event_date`. -/
def dateLe (a b : Row) : Prop :=
  a.event_date ≤ b.event_date

instance : DecidableRel dateLe := fun a b => Nat.decLe a.event_date b.event_date

instance : IsTotal Row dateLe := ⟨fun a b => Nat.le_total a.event_date b.event_date⟩

instance : IsTrans Row dateLe := ⟨fun _ _ _ => Nat.le_trans⟩

/-- Embeds `apply_sort` of src/gigs/build_tables.py,
`df.lazy().sort("event_date", descending=False).collect()`, by the API
contract of the library call: polars `sort`, whose `maintain_order`
parameter defaults to `False` here, guarantees only that the result is a
permutation of the input that is non-decreasing in the sort key — it makes
NO promise about the relative order of rows with equal keys.  The call is
therefore nondeterministic at the source level, and is embedded as the
predicate holding of exactly the outputs the contract permits. -/
def apply_sort_contract (df out : List Row) : Prop :=
  out ~ df ∧ out.Sorted dateLe

instance (df out : List Row) : Decidable (apply_sort_contract df out) :=
  inferInstanceAs (Decidable (out ~ df ∧ out.Sorted dateLe))

/-- The sort key of `sort_table` in src/project/clean.py: ascending date,
ties broken alphabetically by event title. -/
def lexDateTitle (a b : Row) : Prop :=
  a.event_date < b.event_date ∨ (a.event_date = b.event_date ∧ a.title ≤ b.title)

instance : DecidableRel lexDateTitle := fun a b =>
  inferInstanceAs (Decidable
    (a.event_date < b.event_date ∨ (a.event_date = b.event_date ∧ a.title ≤ b.title)))

instance : IsTotal Row lexDateTitle := by
  constructor
  intro a b
  rcases Nat.lt_trichotomy a.event_date b.event_date with h | h | h
  · exact Or.inl (Or.inl h)
  · rcases le_total a.title b.title with ht | ht
    · exact Or.inl (Or.inr ⟨h, ht⟩)
    · exact Or.inr (Or.inr ⟨h.symm, ht⟩)
  · exact Or.inr (Or.inl h)

instance : IsTrans Row lexDateTitle := by
  constructor
  intro a b c hab hbc
  rcases hab with h1 | ⟨h1, t1⟩
  · rcases hbc with h2 | ⟨h2, _⟩
    · exact Or.inl (h1.trans h2)
    · exact Or.inl (h2 ▸ h1)
  · rcases hbc with h2 | ⟨h2, t2⟩
    · exact Or.inl (h1 ▸ h2)
    · exact Or.inr ⟨h1.trans h2, t1.trans t2⟩

/-- Embeds `sort_table` of src/project/clean.py,
`df.sort_values(by=["Event_Date", "Event"])`, as a comparison sort on the
two-column key. -/
def sort_table (df : List Row) : List Row :=
  df.insertionSort lexDateTitle

/-! ## Pagination (src/gigs/scrapers/moshtix_cache.py and
src/gigs/scrapers/ticketmaster.py) -/

/-- Python `range(a, b)`: the integers from `a` up to but excluding `b`. -/
def pyRange (a b : Nat) : List Nat :=
  (List.range (b - a)).map (· + a)

namespace MoshtixScraper

/-- Embeds `MoshtixScraper._extract_page_number` of
src/gigs/scrapers/moshtix_cache.py: the pagination control's text is split
on spaces, its last token parsed with `int(...)`, and one is added; any
exception gives `None`. -/
def extract_page_number (paginationText : String) : Option Nat :=
  (pyInt? ((pySplit paginationText ' ').getLastD "")).map (· + 1)

/-- The page numbers requested by `MoshtixScraper._get_event_nodes` of
src/gigs/scrapers/moshtix_cache.py: `for page in range(start_page,
end_page)` with `start_page = 1`. -/
def visited_pages (end_page : Nat) : List Nat :=
  pyRange 1 end_page

end MoshtixScraper

namespace Ticketmaster

/-- The page numbers requested by `extract_events` of
src/gigs/scrapers/ticketmaster.py: `for num in range(page_num + 1)`. -/
def visited_pages (page_num : Nat) : List Nat :=
  pyRange 0 (page_num + 1)

end Ticketmaster

/-! ## Century price extraction (src/gigs/scrapers/century.py)

`fetch_price` collects every substring matching `\d+\.\d+` from the
concatenated session text, converts each to a float and returns the minimum,
or `0.0` when nothing matched. -/

namespace Century

/-- After a maximal digit run (`intPart`), try to finish one match of
`\d+\.\d+`: a literal dot followed by at least one digit; the frac part is
the maximal digit run after the dot.  Returns the matched token and the
remainder of the input.  (Backtracking inside `\d+` never rescues a failure
here, because the dot can only match a non-digit position.) -/
def scanAfterInt (intPart after : List Char) : Option (String × List Char) :=
  match after with
  | c :: after1 =>
    if c == '.' then
      if (after1.takeWhile Char.isDigit).isEmpty then none
      else some (String.mk (intPart ++ c :: after1.takeWhile Char.isDigit),
                 after1.dropWhile Char.isDigit)
    else none
  | [] => none

/-- Left-to-right non-overlapping scan for `re.findall(r"\d+\.\d+", text)`:
at a digit, take the maximal digit run and try `scanAfterInt`; on failure
the whole run is skipped (every suffix of the run fails the same way, so
the regex engine's restarts inside the run find nothing).  The scan
consumes at least one character per step, so running it with the input's
length as structural fuel (`scanDecimals` below) never exhausts the fuel;
the fuel only makes the recursion structural. -/
def scanDecimalsAux : Nat → List Char → List String
  | 0, _ => []
  | _, [] => []
  | fuel + 1, c :: rest =>
    if c.isDigit then
      match scanAfterInt ((c :: rest).takeWhile Char.isDigit)
          (List.dropWhile Char.isDigit (c :: rest)) with
      | some (tok, after2) => tok :: scanDecimalsAux fuel after2
      | none => scanDecimalsAux fuel (List.dropWhile Char.isDigit (c :: rest))
    else scanDecimalsAux fuel rest

/-- The full `re.findall(r"\d+\.\d+", text)` scan over a character list. -/
def scanDecimals (cs : List Char) : List String :=
  scanDecimalsAux cs.length cs

/-- Python `min(...)` on a list: raises (`none`) on an empty list, otherwise
folds the binary minimum over the elements. -/
def pymin (l : List ℚ) : Option ℚ :=
  match l with
  | [] => none
  | x :: xs => some (xs.foldl min x)

/-- Embeds `fetch_price` of src/gigs/scrapers/century.py: find all
`\d+\.\d+` substrings; none found gives `0.0`, otherwise every token is
converted with `float` (which always succeeds on such tokens — the `getD`
default is dead code) and the minimum is returned. -/
def fetch_price (text : String) : ℚ :=
  let result := scanDecimals text.data
  if result.length = 0 then 0
  else (pymin (result.map (fun i => (Eventbrite.pyFloat i).getD 0))).getD 0

end Century

/-! ## Properties of the dedup stages -/

section UniqueByLemmas

variable {α β : Type} [DecidableEq β] (key : α → β)

theorem uniqueByAux_sublist : ∀ (l : List α) (seen : List β), uniqueByAux key l seen <+ l := by
  intro l
  induction l with
  | nil => intro seen; simp [uniqueByAux]
  | cons x xs ih =>
    intro seen
    simp only [uniqueByAux]
    split
    · exact (ih seen).cons x
    · exact (ih (key x :: seen)).cons₂ x

theorem uniqueByAux_keys :
    ∀ (l : List α) (seen : List β),
      ((uniqueByAux key l seen).map key).Nodup ∧
        ∀ b ∈ (uniqueByAux key l seen).map key, b ∉ seen := by
  intro l
  induction l with
  | nil => intro seen; simp [uniqueByAux]
  | cons x xs ih =>
    intro seen
    simp only [uniqueByAux]
    split
    · exact ih seen
    · rename_i h
      obtain ⟨h1, h2⟩ := ih (key x :: seen)
      refine ⟨?_, ?_⟩
      · simp only [List.map_cons, List.nodup_cons]
        exact ⟨fun hc => (h2 _ hc) (List.mem_cons_self _ _), h1⟩
      · intro b hb
        simp only [List.map_cons, List.mem_cons] at hb
        rcases hb with rfl | hb
        · exact h
        · exact fun hbs => (h2 b hb) (List.mem_cons_of_mem _ hbs)

theorem uniqueByAux_eq_self :
    ∀ (l : List α) (seen : List β), (l.map key).Nodup → (∀ x ∈ l, key x ∉ seen) →
      uniqueByAux key l seen = l := by
  intro l
  induction l with
  | nil => intro seen _ _; simp [uniqueByAux]
  | cons x xs ih =>
    intro seen hnd hout
    simp only [List.map_cons, List.nodup_cons] at hnd
    have hx : key x ∉ seen := hout x (List.mem_cons_self _ _)
    simp only [uniqueByAux, if_neg hx]
    congr 1
    refine ih (key x :: seen) hnd.2 ?_
    intro y hy
    intro hc
    rcases List.mem_cons.mp hc with he | hs
    · exact hnd.1 (he ▸ List.mem_map_of_mem key hy)
    · exact hout y (List.mem_cons_of_mem _ hy) hs

theorem uniqueByAux_find :
    ∀ (l : List α) (seen : List β), ∀ x ∈ uniqueByAux key l seen,
      key x ∉ seen ∧ l.find? (fun y => key y == key x) = some x := by
  intro l
  induction l with
  | nil => intro seen x hx; simp [uniqueByAux] at hx
  | cons z zs ih =>
    intro seen x hx
    simp only [uniqueByAux] at hx
    by_cases h : key z ∈ seen
    · rw [if_pos h] at hx
      obtain ⟨hns, hfind⟩ := ih seen x hx
      have hkz : (key z == key x) = false := by
        simp only [beq_eq_false_iff_ne, ne_eq]
        exact fun he => hns (he ▸ h)
      exact ⟨hns, by simp [List.find?, hkz, hfind]⟩
    · rw [if_neg h] at hx
      rcases List.mem_cons.mp hx with rfl | hx2
      · exact ⟨h, by simp [List.find?]⟩
      · obtain ⟨hns, hfind⟩ := ih (key z :: seen) x hx2
        have hkz : (key z == key x) = false := by
          simp only [beq_eq_false_iff_ne, ne_eq]
          exact fun he => hns (by rw [← he]; exact List.mem_cons_self _ _)
        refine ⟨fun hs => hns (List.mem_cons_of_mem _ hs), ?_⟩
        simp [List.find?, hkz, hfind]

theorem uniqueByAux_keys_complete :
    ∀ (l : List α) (seen : List β), ∀ x ∈ l,
      key x ∈ seen ∨ key x ∈ (uniqueByAux key l seen).map key := by
  intro l
  induction l with
  | nil => intro seen x hx; simp at hx
  | cons z zs ih =>
    intro seen x hx
    simp only [uniqueByAux]
    by_cases h : key z ∈ seen
    · rw [if_pos h]
      rcases List.mem_cons.mp hx with rfl | hx2
      · exact Or.inl h
      · exact ih seen x hx2
    · rw [if_neg h]
      simp only [List.map_cons, List.mem_cons]
      rcases List.mem_cons.mp hx with rfl | hx2
      · exact Or.inr (Or.inl rfl)
      · rcases ih (key z :: seen) x hx2 with hs | hm
        · rcases List.mem_cons.mp hs with he | hs2
          · exact Or.inr (Or.inl he)
          · exact Or.inl hs2
        · exact Or.inr (Or.inr hm)

theorem uniqueBy_eq_self (l : List α) (h : (l.map key).Nodup) : uniqueBy key l = l :=
  uniqueByAux_eq_self key l [] h (by simp)

theorem uniqueBy_keys_nodup (l : List α) : ((uniqueBy key l).map key).Nodup :=
  (uniqueByAux_keys key l []).1

end UniqueByLemmas

/-- The second stage of `remove_duplicate_rows` never removes anything:
after the title-only stage the titles are pairwise distinct, so the
`(title, venue)` keys are too. -/
theorem remove_duplicate_rows_eq (df : List Row) :
    remove_duplicate_rows df = uniqueBy (fun r => r.title) df := by
  unfold remove_duplicate_rows
  apply uniqueBy_eq_self
  have h1 := uniqueBy_keys_nodup (fun r : Row => r.title) df
  have h2 : (uniqueBy (fun r : Row => r.title) df).map (fun r => r.title) =
      ((uniqueBy (fun r : Row => r.title) df).map (fun r => (r.title, r.venue))).map Prod.fst := by
    simp [List.map_map]
  rw [h2] at h1
  exact h1.of_map Prod.fst

/-- C9: dedup is idempotent — `remove_duplicate_rows` applied twice equals
`remove_duplicate_rows` applied once, for every input table. -/
theorem dedupe_idempotent (df : List Row) :
    remove_duplicate_rows (remove_duplicate_rows df) = remove_duplicate_rows df := by
  rw [remove_duplicate_rows_eq df, remove_duplicate_rows_eq, uniqueBy_eq_self]
  exact uniqueBy_keys_nodup _ _

/-- C3 counterexample: on four records — two sharing only a title, two
sharing both title and venue — the title-only stage already collapses both
pairs, and the `(title, venue)` stage removes nothing, contradicting the
claim that records sharing both title and venue collapse in the second
stage (and that both stages can remove records). -/
theorem dedupe_second_stage_noop_counterexample :
    remove_duplicate_rows
        [⟨1, "T1", "V1"⟩, ⟨2, "T1", "V2"⟩, ⟨3, "T2", "V3"⟩, ⟨4, "T2", "V3"⟩] =
      [⟨1, "T1", "V1"⟩, ⟨3, "T2", "V3"⟩] ∧
    uniqueBy (fun r : Row => r.title)
        [⟨1, "T1", "V1"⟩, ⟨2, "T1", "V2"⟩, ⟨3, "T2", "V3"⟩, ⟨4, "T2", "V3"⟩] =
      [⟨1, "T1", "V1"⟩, ⟨3, "T2", "V3"⟩] ∧
    uniqueBy (fun r : Row => (r.title, r.venue)) [(⟨1, "T1", "V1"⟩ : Row), ⟨3, "T2", "V3"⟩] =
      [⟨1, "T1", "V1"⟩, ⟨3, "T2", "V3"⟩] :=
  ⟨by decide, by decide, by decide⟩

/-- C3 (amended): `remove_duplicate_rows` collapses exact duplicate titles
keeping the first occurrence in input order (the result is an
order-preserving subsequence with pairwise-distinct titles, covering every
input title, and each kept record is the first of its title); the
subsequent `(title, venue)` stage can never remove a record, so
`remove_duplicate_rows` coincides with the title-only stage. -/
theorem dedupe_layered_amended (df : List Row) :
    remove_duplicate_rows df = uniqueBy (fun r => r.title) df ∧
    remove_duplicate_rows df <+ df ∧
    ((remove_duplicate_rows df).map (fun r => r.title)).Nodup ∧
    (∀ x ∈ df, x.title ∈ (remove_duplicate_rows df).map (fun r => r.title)) ∧
    (∀ y ∈ remove_duplicate_rows df, df.find? (fun z => z.title == y.title) = some y) := by
  have he := remove_duplicate_rows_eq df
  refine ⟨he, ?_, ?_, ?_, ?_⟩
  · rw [he]
    exact uniqueByAux_sublist _ df []
  · rw [he]
    exact uniqueBy_keys_nodup _ df
  · intro x hx
    rw [he]
    rcases uniqueByAux_keys_complete (fun r : Row => r.title) df [] x hx with h | h
    · simp at h
    · exact h
  · intro y hy
    rw [he] at hy
    exact (uniqueByAux_find (fun r : Row => r.title) df [] y hy).2

/-- C3 witness: the amended theorem applied to the four-record table of the
counterexample — `remove_duplicate_rows` equals the title-only stage there,
and the kept record of title `"T2"` is the first record carrying it. -/
theorem dedupe_layered_amended_witness :
    remove_duplicate_rows
        [⟨1, "T1", "V1"⟩, ⟨2, "T1", "V2"⟩, ⟨3, "T2", "V3"⟩, ⟨4, "T2", "V3"⟩] =
      uniqueBy (fun r : Row => r.title)
        [⟨1, "T1", "V1"⟩, ⟨2, "T1", "V2"⟩, ⟨3, "T2", "V3"⟩, ⟨4, "T2", "V3"⟩] ∧
    List.find? (fun z : Row => z.title == (⟨3, "T2", "V3"⟩ : Row).title)
        [⟨1, "T1", "V1"⟩, ⟨2, "T1", "V2"⟩, ⟨3, "T2", "V3"⟩, ⟨4, "T2", "V3"⟩] =
      some ⟨3, "T2", "V3"⟩ :=
  ⟨(dedupe_layered_amended _).1,
   (dedupe_layered_amended
       [⟨1, "T1", "V1"⟩, ⟨2, "T1", "V2"⟩, ⟨3, "T2", "V3"⟩, ⟨4, "T2", "V3"⟩]).2.2.2.2
     ⟨3, "T2", "V3"⟩ (by decide)⟩

/-! ## Sorting -/

/-- The two-column key of `sort_table` refines the date-only key. -/
theorem lexDateTitle_imp_dateLe {a b : Row} (h : lexDateTitle a b) : dateLe a b := by
  rcases h with h | ⟨h, _⟩
  · exact Nat.le_of_lt h
  · exact Nat.le_of_eq h

/-- C8 counterexample: on a two-row table whose rows share one date, the
output that swaps the two rows satisfies everything the polars `sort` call
(`maintain_order = False`) guarantees — it is a permutation of the input
and non-decreasing in date — yet the two equal-dated rows do not keep
their original input order.  Stability is therefore not a property of the
program's sort. -/
theorem polars_sort_tie_order_counterexample :
    apply_sort_contract [⟨5, "a", "v"⟩, ⟨5, "b", "w"⟩] [⟨5, "b", "w"⟩, ⟨5, "a", "v"⟩] ∧
    ¬ ([(⟨5, "a", "v"⟩ : Row), ⟨5, "b", "w"⟩] <+ [⟨5, "b", "w"⟩, ⟨5, "a", "v"⟩]) :=
  ⟨by decide, by decide⟩

/-- C8 (amended): every output the `apply_sort` call may return is a
permutation of the input that is non-decreasing in `event_date` for all
adjacent pairs, such an output exists for every input, and the output's
date sequence is uniquely determined by the input (any two permitted
outputs agree on it); no relative order among records with equal dates is
guaranteed.  `sort_table` sorts by the explicit secondary key — ascending
date with ties broken by title — and hence is also non-decreasing in date
and a permutation of its input. -/
theorem sort_by_date_amended (df : List Row) :
    (∃ out : List Row, apply_sort_contract df out) ∧
    (∀ out : List Row, apply_sort_contract df out → out.Sorted dateLe ∧ out ~ df) ∧
    (∀ out1 out2 : List Row, apply_sort_contract df out1 → apply_sort_contract df out2 →
      out1.map (fun r => r.event_date) = out2.map (fun r => r.event_date)) ∧
    (sort_table df).Sorted lexDateTitle ∧
    (sort_table df).Sorted dateLe ∧
    sort_table df ~ df := by
  refine ⟨?_, ?_, ?_, ?_, ?_, ?_⟩
  · exact ⟨df.insertionSort dateLe,
      List.perm_insertionSort dateLe df, List.sorted_insertionSort dateLe df⟩
  · intro out h
    exact ⟨h.2, h.1⟩
  · intro out1 out2 h1 h2
    have hperm : out1.map (fun r => r.event_date) ~ out2.map (fun r => r.event_date) :=
      (h1.1.trans h2.1.symm).map (fun r => r.event_date)
    have hs1 : (out1.map (fun r => r.event_date)).Sorted (· ≤ ·) :=
      List.pairwise_map.mpr h1.2
    have hs2 : (out2.map (fun r => r.event_date)).Sorted (· ≤ ·) :=
      List.pairwise_map.mpr h2.2
    exact List.eq_of_perm_of_sorted hperm hs1 hs2
  · exact List.sorted_insertionSort lexDateTitle df
  · exact (List.sorted_insertionSort lexDateTitle df).imp fun h => lexDateTitle_imp_dateLe h
  · exact List.perm_insertionSort lexDateTitle df

/-- C8 witness: the amended theorem applied to a concrete two-row table
with a date tie — both tie orders are permitted outputs and agree on the
date sequence, and `sort_table` of the table is date-sorted and permutes
it. -/
theorem sort_by_date_amended_witness :
    [(⟨5, "a", "v"⟩ : Row), ⟨5, "b", "w"⟩].map (fun r => r.event_date) =
      [(⟨5, "b", "w"⟩ : Row), ⟨5, "a", "v"⟩].map (fun r => r.event_date) ∧
    (sort_table [(⟨5, "a", "v"⟩ : Row), ⟨5, "b", "w"⟩]).Sorted dateLe ∧
    sort_table [(⟨5, "a", "v"⟩ : Row), ⟨5, "b", "w"⟩] ~ [⟨5, "a", "v"⟩, ⟨5, "b", "w"⟩] :=
  have H := sort_by_date_amended [⟨5, "a", "v"⟩, ⟨5, "b", "w"⟩]
  ⟨H.2.2.1 [⟨5, "a", "v"⟩, ⟨5, "b", "w"⟩] [⟨5, "b", "w"⟩, ⟨5, "a", "v"⟩]
     (by decide) (by decide),
   H.2.2.2.2.1, H.2.2.2.2.2⟩

/-! ## Pagination -/

/-- C4: when the scraped pagination text's last token parses to the
last-page value `N`, `_extract_page_number` returns `N + 1` and the crawl
loop `range(1, N + 1)` visits exactly the pages `{1, ..., N}`, each once;
the Ticketmaster loop `range(page_num + 1)` on a discovered value `N`
visits exactly its 0-based inclusive range `{0, ..., N}`, each once. -/
theorem pagination_inclusive_range (N : Nat) (text : String)
    (h : pyInt? ((pySplit text ' ').getLastD "") = some N) :
    MoshtixScraper.extract_page_number text = some (N + 1) ∧
    (∀ p : Nat, p ∈ MoshtixScraper.visited_pages (N + 1) ↔ 1 ≤ p ∧ p ≤ N) ∧
    (MoshtixScraper.visited_pages (N + 1)).Nodup ∧
    (∀ p : Nat, p ∈ Ticketmaster.visited_pages N ↔ p ≤ N) ∧
    (Ticketmaster.visited_pages N).Nodup := by
  refine ⟨?_, ?_, ?_, ?_, ?_⟩
  · simp only [MoshtixScraper.extract_page_number]
    rw [h]
    rfl
  · intro p
    simp only [MoshtixScraper.visited_pages, pyRange, List.mem_map, List.mem_range]
    constructor
    · rintro ⟨a, ha, rfl⟩
      omega
    · rintro ⟨h1, h2⟩
      exact ⟨p - 1, by omega, by omega⟩
  · exact (List.nodup_range _).map fun a b hab => by omega
  · intro p
    simp only [Ticketmaster.visited_pages, pyRange, List.mem_map, List.mem_range]
    constructor
    · rintro ⟨a, ha, rfl⟩
      omega
    · rintro h1
      exact ⟨p, by omega, by omega⟩
  · exact (List.nodup_range _).map fun a b hab => by omega

/-- C4 witness: a pagination control reading `"... of 5"` yields end page 6,
the crawler then visits pages 1 and 5 but neither 0 nor 6, and the
Ticketmaster crawl of a discovered value 5 visits page 5 but not page 6. -/
theorem pagination_inclusive_range_witness :
    MoshtixScraper.extract_page_number "Showing page 1 of 5" = some 6 ∧
    5 ∈ MoshtixScraper.visited_pages 6 ∧ 1 ∈ MoshtixScraper.visited_pages 6 ∧
    0 ∉ MoshtixScraper.visited_pages 6 ∧ 6 ∉ MoshtixScraper.visited_pages 6 ∧
    5 ∈ Ticketmaster.visited_pages 5 ∧ 6 ∉ Ticketmaster.visited_pages 5 :=
  have H := pagination_inclusive_range 5 "Showing page 1 of 5" (by decide)
  ⟨H.1, (H.2.1 5).mpr (by decide), (H.2.1 1).mpr (by decide),
   fun hc => by have := (H.2.1 0).mp hc; omega,
   fun hc => by have := (H.2.1 6).mp hc; omega,
   (H.2.2.2.1 5).mpr (by decide),
   fun hc => by have := (H.2.2.2.1 6).mp hc; omega⟩

/-! ## Properties of the venue resolver -/

/-- `add_venue_info` in closed form: the successes are the events whose
venue the directory resolves (order-preserving, enriched), the errors the
rest (order-preserving, unchanged). -/
theorem add_venue_info_eq (data : List MEvent) (venues : VenueMap) :
    add_venue_info data venues =
      (data.filterMap (resolveEvent venues),
       data.filter (fun e => (venues.lookup e.venue).isNone)) := by
  induction data with
  | nil => rfl
  | cons e rest ih =>
    simp only [add_venue_info, ih]
    cases h : venues.lookup e.venue with
    | none => simp [resolveEvent, h, List.filterMap_cons, List.filter_cons]
    | some loc => simp [resolveEvent, h, List.filterMap_cons, List.filter_cons]

/-- `add_venue_info` loses no event: the two output lengths sum to the
input length. -/
theorem add_venue_info_length (data : List MEvent) (venues : VenueMap) :
    (add_venue_info data venues).1.length + (add_venue_info data venues).2.length
      = data.length := by
  induction data with
  | nil => rfl
  | cons e rest ih =>
    simp only [add_venue_info]
    cases h : resolveEvent venues e <;> simp only [List.length_cons] <;> omega

/-- `find_venue_url` issues exactly one search request per input venue
name. -/
theorem find_venue_url_log (search : String → SearchResult) (l : List String) :
    (find_venue_url search l).2.2 = l := by
  induction l with
  | nil => rfl
  | cons v rest ih =>
    simp only [find_venue_url]
    cases search v <;> simp [ih]

/-- The search requests of one resolver run are exactly the deduplicated
venue names of the Pass-1 errors. -/
theorem moshtix_searchLog_eq (data : List MEvent) (venues : VenueMap)
    (search : String → SearchResult) (fetchLoc : String → LocResult) :
    (moshtix_fetch_venue data venues search fetchLoc).searchLog =
      ((add_venue_info data venues).2.map (fun e => e.venue)).dedup := by
  show (if (add_venue_info data venues).2.isEmpty then _ else _ : VenueMap × List String).2 = _
  by_cases hp : (add_venue_info data venues).2.isEmpty
  · rw [if_pos hp]
    rw [List.isEmpty_iff] at hp
    simp [hp]
  · rw [if_neg hp]
    exact find_venue_url_log search _

/-- C10: `add_venue_info` partitions its input — the successes are exactly
the events whose venue the directory resolves, enriched with the directory
entry stored under their venue name; the errors are exactly the rest,
unchanged and in input order; and the two lengths sum to the input
length. -/
theorem add_venue_info_partition (data : List MEvent) (venues : VenueMap) :
    (add_venue_info data venues).1 = data.filterMap (resolveEvent venues) ∧
    (add_venue_info data venues).2 =
      data.filter (fun e => (venues.lookup e.venue).isNone) ∧
    (add_venue_info data venues).1.length + (add_venue_info data venues).2.length
      = data.length ∧
    ∀ e2 ∈ (add_venue_info data venues).1, ∃ loc : VenueLoc,
      venues.lookup e2.venue = some loc ∧ e2.suburb = loc.suburb ∧ e2.state = loc.state := by
  have h := add_venue_info_eq data venues
  have h1 : (add_venue_info data venues).1 = data.filterMap (resolveEvent venues) := by
    rw [h]
  have h2 : (add_venue_info data venues).2 =
      data.filter (fun e => (venues.lookup e.venue).isNone) := by
    rw [h]
  refine ⟨h1, h2, add_venue_info_length data venues, ?_⟩
  intro e2 he2
  rw [h1] at he2
  obtain ⟨e, _, hres⟩ := List.mem_filterMap.mp he2
  simp only [resolveEvent] at hres
  cases hl : venues.lookup e.venue with
  | none => rw [hl] at hres; simp at hres
  | some loc =>
    rw [hl] at hres
    simp only [Option.map_some', Option.some.injEq] at hres
    subst hres
    exact ⟨loc, hl, rfl, rfl⟩

/-- C10 witness: on a directory holding "The Lansdowne" and two events (one
at that venue, one at an unknown venue), the run partitions 1 + 1 = 2 and
the success record carries exactly the stored suburb and state. -/
theorem add_venue_info_partition_witness :
    (add_venue_info [⟨"g1", "The Lansdowne", "?", "?"⟩, ⟨"g2", "Nowhere", "?", "?"⟩]
        [("The Lansdowne", ⟨"Chippendale", "NSW"⟩)]).1.length +
      (add_venue_info [⟨"g1", "The Lansdowne", "?", "?"⟩, ⟨"g2", "Nowhere", "?", "?"⟩]
        [("The Lansdowne", ⟨"Chippendale", "NSW"⟩)]).2.length = 2 ∧
    ∃ loc : VenueLoc,
      List.lookup (⟨"g1", "The Lansdowne", "Chippendale", "NSW"⟩ : MEvent).venue
          [("The Lansdowne", ⟨"Chippendale", "NSW"⟩)] = some loc ∧
      (⟨"g1", "The Lansdowne", "Chippendale", "NSW"⟩ : MEvent).suburb = loc.suburb ∧
      (⟨"g1", "The Lansdowne", "Chippendale", "NSW"⟩ : MEvent).state = loc.state :=
  ⟨(add_venue_info_partition
      [⟨"g1", "The Lansdowne", "?", "?"⟩, ⟨"g2", "Nowhere", "?", "?"⟩]
      [("The Lansdowne", ⟨"Chippendale", "NSW"⟩)]).2.2.1,
   (add_venue_info_partition
      [⟨"g1", "The Lansdowne", "?", "?"⟩, ⟨"g2", "Nowhere", "?", "?"⟩]
      [("The Lansdowne", ⟨"Chippendale", "NSW"⟩)]).2.2.2
     ⟨"g1", "The Lansdowne", "Chippendale", "NSW"⟩ (by decide)⟩

/-- C7: one resolver run issues exactly one fallback search per distinct
unresolved venue name — the search log equals the deduplicated venue names
of the Pass-1 errors, and each unresolved venue name is counted exactly
once in it (so two events sharing one unknown venue trigger one lookup,
and a venue not in the errors triggers none). -/
theorem fallback_lookup_once_per_venue (data : List MEvent) (venues : VenueMap)
    (search : String → SearchResult) (fetchLoc : String → LocResult) :
    (moshtix_fetch_venue data venues search fetchLoc).searchLog =
      ((add_venue_info data venues).2.map (fun e => e.venue)).dedup ∧
    ∀ v : String,
      ((moshtix_fetch_venue data venues search fetchLoc).searchLog).count v =
        if v ∈ (add_venue_info data venues).2.map (fun e => e.venue) then 1 else 0 := by
  refine ⟨moshtix_searchLog_eq data venues search fetchLoc, ?_⟩
  intro v
  rw [moshtix_searchLog_eq data venues search fetchLoc]
  exact List.count_dedup _ v

/-- C2 counterexample: with one event at venue "The Void" and an empty
directory, (i) when the fallback search page cannot be scraped the event
ends the run in the logged remaining-errors list and the emitted list is
empty — the still-unresolved event is dropped from the output, not kept;
(ii) when the fallback yields the comma-free address "121 OFF ST NEWTOWN",
the event is emitted with `suburb = "-", state = "-"` and the
remaining-errors list is empty — it appears zero times, not once, in the
still-unresolved report. -/
theorem resolver_drops_unresolved_counterexample :
    (moshtix_fetch_venue [⟨"gig", "The Void", "?", "?"⟩] ([] : VenueMap)
        (fun _ => SearchResult.scrapeFail) (fun _ => LocResult.noResponse)).final_success
      = [] ∧
    (moshtix_fetch_venue [⟨"gig", "The Void", "?", "?"⟩] ([] : VenueMap)
        (fun _ => SearchResult.scrapeFail) (fun _ => LocResult.noResponse)).errors2
      = [⟨"gig", "The Void", "?", "?"⟩] ∧
    (moshtix_fetch_venue [⟨"gig", "The Void", "?", "?"⟩] ([] : VenueMap)
        (fun _ => SearchResult.found "url")
        (fun _ => LocResult.address "121 OFF ST NEWTOWN")).final_success
      = [⟨"gig", "The Void", "-", "-"⟩] ∧
    (moshtix_fetch_venue [⟨"gig", "The Void", "?", "?"⟩] ([] : VenueMap)
        (fun _ => SearchResult.found "url")
        (fun _ => LocResult.address "121 OFF ST NEWTOWN")).errors2 = [] :=
  ⟨by decide, by decide, by decide, by decide⟩

/-- C2 (amended): the emitted output of a resolver run is the Pass-1
successes followed by the Pass-2 resolutions of the Pass-1 errors against
the merged-back directory; the events still unresolved after Pass 2 are
excluded from that output — they are exactly the Pass-1 errors whose venue
the final directory still lacks, each listed once, in input order, in the
logged remaining-errors set; output plus remaining errors partition the
input by count. -/
theorem resolver_final_state_amended (data : List MEvent) (venues : VenueMap)
    (search : String → SearchResult) (fetchLoc : String → LocResult) :
    (moshtix_fetch_venue data venues search fetchLoc).final_success =
      (add_venue_info data venues).1 ++
        (add_venue_info data venues).2.filterMap
          (resolveEvent (moshtix_fetch_venue data venues search fetchLoc).venuesOut) ∧
    (moshtix_fetch_venue data venues search fetchLoc).errors2 =
      (add_venue_info data venues).2.filter (fun e =>
        (((moshtix_fetch_venue data venues search fetchLoc).venuesOut).lookup e.venue).isNone) ∧
    (moshtix_fetch_venue data venues search fetchLoc).final_success.length +
      (moshtix_fetch_venue data venues search fetchLoc).errors2.length = data.length := by
  have hs : (moshtix_fetch_venue data venues search fetchLoc).final_success =
      (add_venue_info data venues).1 ++
        (add_venue_info (add_venue_info data venues).2
          (moshtix_fetch_venue data venues search fetchLoc).venuesOut).1 := rfl
  have he : (moshtix_fetch_venue data venues search fetchLoc).errors2 =
      (add_venue_info (add_venue_info data venues).2
        (moshtix_fetch_venue data venues search fetchLoc).venuesOut).2 := rfl
  have hq := add_venue_info_eq (add_venue_info data venues).2
    (moshtix_fetch_venue data venues search fetchLoc).venuesOut
  refine ⟨?_, ?_, ?_⟩
  · rw [hs, hq]
  · rw [he, hq]
  · rw [hs, he, List.length_append]
    have l1 := add_venue_info_length data venues
    have l2 := add_venue_info_length (add_venue_info data venues).2
      (moshtix_fetch_venue data venues search fetchLoc).venuesOut
    omega

/-! ## Properties of the address parser -/

/-- When position `idx` holds the first states-matching token of `text`,
the filter comprehension's head is that token and `text.index` finds it at
exactly `idx` (an earlier occurrence of the same value would itself match,
contradicting firstness). -/
theorem first_match_spec (states : List String) :
    ∀ (text : List String) (idx : Nat), idx < text.length →
      states.contains (text.getD idx "") = true →
      (∀ j : Nat, j < idx → states.contains (text.getD j "") = false) →
      (text.filter (fun t => states.contains t)).head? = some (text.getD idx "") ∧
      ∀ i : Nat, text.findIdx? (fun u => u == text.getD idx "") i = some (i + idx) := by
  intro text
  induction text with
  | nil =>
    intro idx h1
    simp at h1
  | cons x xs ih =>
    intro idx h1 hm hb
    cases idx with
    | zero =>
      simp only [List.getD_cons_zero] at hm ⊢
      refine ⟨?_, ?_⟩
      · have hx : x ∈ states := by
          simpa using hm
        simp [List.filter_cons, hx]
      · intro i
        simp [List.findIdx?_cons]
    | succ k =>
      have hb0 := hb 0 (Nat.succ_pos k)
      simp only [List.getD_cons_zero] at hb0
      simp only [List.getD_cons_succ] at hm ⊢
      have h1' : k < xs.length := by
        simpa using h1
      have hb' : ∀ j : Nat, j < k → states.contains (xs.getD j "") = false := by
        intro j hj
        have := hb (j + 1) (by omega)
        simpa using this
      obtain ⟨hh, hf⟩ := ih k h1' hm hb'
      have hxne : (x == xs.getD k "") = false := by
        rcases hbeq : (x == xs.getD k "") with _ | _
        · rfl
        · exfalso
          have hx : x = xs.getD k "" := by simpa using hbeq
          rw [hx, hm] at hb0
          exact Bool.noConfusion hb0
      refine ⟨?_, ?_⟩
      · rw [List.filter_cons, hb0]
        simpa using hh
      · intro i
        rw [List.findIdx?_cons, hxne]
        simp only [Bool.false_eq_true, if_false]
        rw [hf (i + 1)]
        congr 1
        omega

/-- The state tokens carry no surrounding whitespace, so the `.strip()`
applied to the matched token is the identity on it. -/
theorem pyStrip_states {s : String} (h : statesList.contains s = true) : pyStrip s = s := by
  have hmem : s ∈ statesList := by
    simpa using h
  fin_cases hmem <;> decide

/-- `extract_suburb_and_state` in closed form at a first states-matching
token position. -/
theorem extract_suburb_and_state_spec (address : String) (idx : Nat)
    (h1 : idx < (lastSegmentTokens address).length)
    (hm : statesList.contains ((lastSegmentTokens address).getD idx "") = true)
    (hb : ∀ j : Nat, j < idx →
      statesList.contains ((lastSegmentTokens address).getD j "") = false) :
    extract_suburb_and_state address statesList =
      some (pyStrip (String.intercalate " " ((lastSegmentTokens address).take idx)),
            (lastSegmentTokens address).getD idx "") := by
  obtain ⟨hh, hf⟩ := first_match_spec statesList (lastSegmentTokens address) idx h1 hm hb
  have hstrip := pyStrip_states hm
  simp only [extract_suburb_and_state]
  rw [hh]
  simp only [Option.some_bind]
  rw [hstrip, hf 0]
  simp only [Option.some_bind, Nat.zero_add]

/-- C6 counterexample: the address `"NEWTOWN NSW, AUSTRALIA"` contains a
comma and its token `"NSW"` is in the state set, so matching the address's
tokens — as the claim states — yields `("NEWTOWN", "NSW")`
(`clean_address_claim` below); the code only matches the tokens of the
final comma segment, `"AUSTRALIA"`, and yields `("-", "-")`. -/
theorem clean_address_last_segment_counterexample :
    clean_address "NEWTOWN NSW, AUSTRALIA" statesList = ("-", "-") ∧
    clean_address_claim "NEWTOWN NSW, AUSTRALIA" statesList = ("NEWTOWN", "NSW") ∧
    clean_address "NEWTOWN NSW, AUSTRALIA" statesList ≠
      clean_address_claim "NEWTOWN NSW, AUSTRALIA" statesList :=
  ⟨by decide, by decide, by decide⟩

/-- C6 (amended): `clean_address` is total and determined by the final
comma-separated segment: an address with no comma parses to `("-", "-")`;
so does one whose final segment has no token in the fixed state set
{ACT, NSW, NT, QLD, SA, TAS, VIC, WA}; and when the final segment's first
state-set token sits at position `idx`, the state is that token and the
suburb is the segment's tokens before `idx`, joined and stripped. -/
theorem clean_address_amended (address : String) :
    (pyContains address ',' = false → clean_address address statesList = ("-", "-")) ∧
    ((lastSegmentTokens address).filter (fun t => statesList.contains t) = [] →
      clean_address address statesList = ("-", "-")) ∧
    ∀ idx : Nat, pyContains address ',' = true →
      idx < (lastSegmentTokens address).length →
      statesList.contains ((lastSegmentTokens address).getD idx "") = true →
      (∀ j : Nat, j < idx →
        statesList.contains ((lastSegmentTokens address).getD j "") = false) →
      clean_address address statesList =
        (pyStrip (String.intercalate " " ((lastSegmentTokens address).take idx)),
         (lastSegmentTokens address).getD idx "") := by
  refine ⟨?_, ?_, ?_⟩
  · intro h
    simp [clean_address, h]
  · intro hfilter
    by_cases hc : pyContains address ','
    · simp only [clean_address, hc, Bool.not_true, Bool.false_eq_true, if_false,
        extract_suburb_and_state]
      rw [hfilter]
      rfl
    · simp [clean_address, hc]
  · intro idx hc h1 hm hb
    simp only [clean_address, hc, Bool.not_true, Bool.false_eq_true, if_false]
    rw [extract_suburb_and_state_spec address idx h1 hm hb]
    rfl

/-- C6 witness: the amended theorem applied to a concrete valid address —
the final segment `"CHIPPENDALE NSW 2008"` has its first state token at
position 1, and the parse yields that suburb and state. -/
theorem clean_address_amended_witness :
    clean_address "123 FOO ST, CHIPPENDALE NSW 2008" statesList = ("CHIPPENDALE", "NSW") :=
  have H := (clean_address_amended "123 FOO ST, CHIPPENDALE NSW 2008").2.2 1
    (by decide) (by decide) (by decide)
    (fun j hj => by
      have hj0 : j = 0 := by omega
      subst hj0
      decide)
  H.trans (by decide)

/-! ## Date fallback (C1) -/

/-- C1 counterexample: constructing the Eventbrite canonical record from
the malformed date string `"not-a-date"` raises `ValueError` out of the
date validator — no record carrying the sentinel far-future date is
constructed, the exception propagates out of construction (the Phoenix
validator, by contrast, does fall back to the sentinel). -/
theorem eventbrite_malformed_date_raises :
    Eventbrite.mkGig "not-a-date" PyVal.pynone = Except.error "ValueError" ∧
    Eventbrite.parse_date "not-a-date" = Except.error "ValueError" ∧
    Phoenix.check_valid_date "not-a-date" = "01 Jan 2099" :=
  ⟨by decide, by decide, by decide⟩

/-- C1 (amended): the Phoenix date validator falls back to the sentinel
`"01 Jan 2099"` on every non-matching date string, so Phoenix construction
never raises on a malformed date; the Eventbrite date validator instead
raises `ValueError` on every unparsable date string — construction raises,
and the enclosing `fetch_data` loop catches the exception and skips the
record, so the pipeline continues but no sentinel-dated record is
constructed. -/
theorem date_fallback_amended (v : String) :
    (Phoenix.matchDatePattern v.data = false →
      Phoenix.check_valid_date v = "01 Jan 2099") ∧
    (strptimeYMD v = none → Eventbrite.parse_date v = Except.error "ValueError") ∧
    (strptimeYMD v = none → ∀ (p : PyVal) (rows : List (String × PyVal)),
      Eventbrite.mkGig v p = Except.error "ValueError" ∧
      Eventbrite.fetch_data ((v, p) :: rows) = Eventbrite.fetch_data rows) := by
  refine ⟨?_, ?_, ?_⟩
  · intro h
    simp [Phoenix.check_valid_date, h]
  · intro h
    simp [Eventbrite.parse_date, h]
  · intro h p rows
    have hm : Eventbrite.mkGig v p = Except.error "ValueError" := by
      simp [Eventbrite.mkGig, Eventbrite.parse_date, h]
    exact ⟨hm, by simp [Eventbrite.fetch_data, hm]⟩

/-- C1 witness: the amended theorem at the malformed date `"31 December"` —
Phoenix substitutes the sentinel, Eventbrite construction raises, and
`fetch_data` drops exactly that row. -/
theorem date_fallback_amended_witness :
    Phoenix.check_valid_date "31 December" = "01 Jan 2099" ∧
    Eventbrite.parse_date "31 December" = Except.error "ValueError" ∧
    Eventbrite.mkGig "31 December" PyVal.pynone = Except.error "ValueError" ∧
    Eventbrite.fetch_data [("31 December", PyVal.pynone), ("2023-08-03", PyVal.pynone)] =
      Eventbrite.fetch_data [("2023-08-03", PyVal.pynone)] :=
  have H := date_fallback_amended "31 December"
  ⟨H.1 (by decide), H.2.1 (by decide),
   (H.2.2 (by decide) PyVal.pynone [("2023-08-03", PyVal.pynone)]).1,
   (H.2.2 (by decide) PyVal.pynone [("2023-08-03", PyVal.pynone)]).2⟩

/-! ## Minimum price (C5) -/

/-- A fold of `min` is a lower bound for its seed. -/
theorem foldl_min_le_seed : ∀ (xs : List ℚ) (x : ℚ), xs.foldl min x ≤ x := by
  intro xs
  induction xs with
  | nil => intro x; exact le_refl x
  | cons y ys ih =>
    intro x
    exact le_trans (ih (min x y)) (min_le_left x y)

/-- A fold of `min` is a lower bound for every element. -/
theorem foldl_min_le_mem : ∀ (xs : List ℚ) (x q : ℚ), q ∈ xs → xs.foldl min x ≤ q := by
  intro xs
  induction xs with
  | nil =>
    intro x q hq
    simp at hq
  | cons y ys ih =>
    intro x q hq
    rcases List.mem_cons.mp hq with rfl | hq2
    · exact le_trans (foldl_min_le_seed ys (min x q)) (min_le_right x q)
    · exact ih (min x y) q hq2

/-- A fold of `min` returns its seed or one of its elements. -/
theorem foldl_min_mem : ∀ (xs : List ℚ) (x : ℚ), xs.foldl min x ∈ x :: xs := by
  intro xs
  induction xs with
  | nil => intro x; exact List.mem_cons_self x []
  | cons y ys ih =>
    intro x
    simp only [List.foldl_cons]
    rcases List.mem_cons.mp (ih (min x y)) with he | hm
    · rw [he]
      rcases min_choice x y with hc | hc
      · rw [hc]
        exact List.mem_cons_self x (y :: ys)
      · rw [hc]
        exact List.mem_cons_of_mem x (List.mem_cons_self y ys)
    · exact List.mem_cons_of_mem x (List.mem_cons_of_mem y hm)

/-- C5: `fetch_price` maps an empty set of matched price substrings to 0.0,
and a non-empty one to its arithmetic minimum — the returned price is one
of the parsed values and a lower bound for all of them; `convert_price`
returns the parsed value of a numeric price string (the minimum of its
singleton set) and 0.0 for a non-string (absent) value. -/
theorem price_minimum_spec (text : String) :
    (Century.scanDecimals text.data = [] → Century.fetch_price text = 0) ∧
    (Century.scanDecimals text.data ≠ [] →
      Century.fetch_price text ∈
        (Century.scanDecimals text.data).map (fun i => (Eventbrite.pyFloat i).getD 0)) ∧
    (∀ i ∈ Century.scanDecimals text.data,
      Century.fetch_price text ≤ (Eventbrite.pyFloat i).getD 0) ∧
    (∀ s : String, (Eventbrite.pyFloat s).isSome = true →
      Eventbrite.convert_price (PyVal.str s) = Except.ok ((Eventbrite.pyFloat s).getD 0)) ∧
    Eventbrite.convert_price PyVal.pynone = Except.ok 0 := by
  refine ⟨?_, ?_, ?_, ?_, rfl⟩
  · intro h
    simp [Century.fetch_price, h]
  · intro h
    cases hs : Century.scanDecimals text.data with
    | nil => exact absurd hs h
    | cons r rs =>
      simp only [Century.fetch_price, hs, List.length_cons, List.map_cons, Century.pymin,
        Option.getD_some]
      simp only [Nat.succ_ne_zero, if_false]
      exact foldl_min_mem _ _
  · intro i hi
    cases hs : Century.scanDecimals text.data with
    | nil =>
      rw [hs] at hi
      simp at hi
    | cons r rs =>
      rw [hs] at hi
      simp only [Century.fetch_price, hs, List.length_cons, List.map_cons, Century.pymin,
        Option.getD_some]
      simp only [Nat.succ_ne_zero, if_false]
      rcases List.mem_cons.mp hi with rfl | hi2
      · exact foldl_min_le_seed _ _
      · exact foldl_min_le_mem _ _ _ (List.mem_map_of_mem _ hi2)
  · intro s hs
    cases hp : Eventbrite.pyFloat s with
    | none => rw [hp] at hs; simp at hs
    | some q => simp [Eventbrite.convert_price, hp]

/-- C5 witness: the theorem at concrete inputs — a priceless text yields 0,
the two-price text `"$25.00 / $18.50"` yields a price that is among the two
parsed values and at most the smaller one, and a string price parses to its
own value. -/
theorem price_minimum_spec_witness :
    Century.fetch_price "no tickets today" = 0 ∧
    Century.fetch_price "$25.00 / $18.50" ∈
      (Century.scanDecimals "$25.00 / $18.50".data).map
        (fun i => (Eventbrite.pyFloat i).getD 0) ∧
    Century.fetch_price "$25.00 / $18.50" ≤ (Eventbrite.pyFloat "18.50").getD 0 ∧
    Eventbrite.convert_price (PyVal.str "25.0") =
      Except.ok ((Eventbrite.pyFloat "25.0").getD 0) ∧
    Eventbrite.convert_price PyVal.pynone = Except.ok 0 :=
  ⟨(price_minimum_spec "no tickets today").1 (by decide),
   (price_minimum_spec "$25.00 / $18.50").2.1 (by decide),
   (price_minimum_spec "$25.00 / $18.50").2.2.1 "18.50" (by decide),
   (price_minimum_spec "irrelevant").2.2.2.1 "25.0" (by decide),
   (price_minimum_spec "irrelevant").2.2.2.2⟩

example : clean_address "123 FOO ST, CHIPPENDALE NSW 2008" statesList = ("CHIPPENDALE", "NSW") := by
  decide
example : clean_address "NO COMMA NSW" statesList = ("-", "-") := by decide
example : clean_address "NEWTOWN NSW, AUSTRALIA" statesList = ("-", "-") := by decide

example :
    Century.scanDecimals "From $25.00, conc. $18.50 (+ $1.1 fee)".data =
      ["25.00", "18.50", "1.1"] := by decide
example : Century.scanDecimals "no prices: $10 or 12. or .5".data = [] := by decide
example : Century.fetch_price "free entry" = 0 := by rfl

example : Phoenix.check_valid_date "3 Aug 2023" = "03 Aug 2023" := by decide
example : Phoenix.check_valid_date "13 Aug 2023" = "13 Aug 2023" := by decide
example : Phoenix.check_valid_date "Aug 13 2023" = "01 Jan 2099" := by decide
example : Eventbrite.parse_date "2023-08-03" = .ok "03 Aug 2023" := by decide
example : Eventbrite.parse_date "garbage" = .error "ValueError" := by decide
example : (Eventbrite.pyFloat " 18.50").isSome = true := by decide
example : Eventbrite.mkGig "bad date" PyVal.pynone = .error "ValueError" := by decide

end Gigs
